import Mathlib

/-!
Shallow embedding of the `browserclient` Go repository (client.go,
fingerprint.go, profile.go, stream.go, types.go) and proofs about the
fingerprint-consistency engine: browser-family resolution, TLS template
selection, header generation, redirect/retry policy, navigation history,
the stream reader, and the per-thread profile cache.

Go machine integers appearing here (lengths, counters, status codes) stay
well inside their ranges, so they are modelled as `Nat`/`Int` without
wrap-around.  Randomness (`rand.Float32`, `rand.Intn`) is modelled by
explicit draw parameters; `rand.Float32` draws compared against the
thresholds 0.2/0.3/0.4/0.7 are modelled as uniform deciles `Fin 10`
(the event `f < k/10` has the same probability as `d.val < k` for a
uniform decile), which is exact for every threshold used by the code.
-/

namespace BrowserClient

/-! ### String helpers (Go `strings.Contains` / `strings.HasPrefix`) -/

/-- Tests that the char list `a` is an initial segment of `b`
(Go `strings.HasPrefix(b, a)` on the underlying bytes). -/
def listLeads : List Char → List Char → Bool
  | [], _ => true
  | _ :: _, [] => false
  | a :: as, b :: bs => a == b && listLeads as bs

/-- Tests that `sub` occurs contiguously in the char list
(Go `strings.Contains(s, sub)`). -/
def listHasSub (sub : List Char) : List Char → Bool
  | [] => sub.isEmpty
  | s@(_ :: t) => listLeads sub s || listHasSub sub t

/-- Go `strings.Contains(s, sub)`. -/
def strContainsStr (s sub : String) : Bool :=
  listHasSub sub.data s.data

/-- Go `strings.HasPrefix(s, p)`. -/
def strHasPre (s p : String) : Bool :=
  listLeads p.data s.data

/-! ### client.go: `detectBrowser` -/

/-- Embedding of `detectBrowser` (client.go): Firefox first, then Safari
(only without Chrome), then `Edg/`, defaulting to Chrome. -/
def detectBrowser (userAgent : String) : String :=
  if strContainsStr userAgent "Firefox" then "Firefox"
  else if strContainsStr userAgent "Safari" && !strContainsStr userAgent "Chrome" then "Safari"
  else if strContainsStr userAgent "Edg/" then "Edge"
  else "Chrome"

/-! ### profile.go: the fixed pool of profile user-agent strings -/

/-- Embedding of the `userAgents` pool (profile.go) from which every
generated `BrowserProfile.UserAgent` is drawn. -/
def userAgents : List String := [
  "Mozilla/5.0 (Windows NT 10.0; Win64; x64) AppleWebKit/537.36 (KHTML, like Gecko) Chrome/125.0.0.0 Safari/537.36",
  "Mozilla/5.0 (Windows NT 10.0; Win64; x64) AppleWebKit/537.36 (KHTML, like Gecko) Chrome/124.0.0.0 Safari/537.36",
  "Mozilla/5.0 (Windows NT 10.0; Win64; x64) AppleWebKit/537.36 (KHTML, like Gecko) Chrome/123.0.0.0 Safari/537.36",
  "Mozilla/5.0 (Macintosh; Intel Mac OS X 10_15_7) AppleWebKit/537.36 (KHTML, like Gecko) Chrome/125.0.0.0 Safari/537.36",
  "Mozilla/5.0 (X11; Linux x86_64) AppleWebKit/537.36 (KHTML, like Gecko) Chrome/125.0.0.0 Safari/537.36",
  "Mozilla/5.0 (Windows NT 10.0; Win64; x64; rv:126.0) Gecko/20100101 Firefox/126.0",
  "Mozilla/5.0 (Macintosh; Intel Mac OS X 14.5; rv:126.0) Gecko/20100101 Firefox/126.0",
  "Mozilla/5.0 (Macintosh; Intel Mac OS X 14_5) AppleWebKit/605.1.15 (KHTML, like Gecko) Version/17.4.1 Safari/605.1.15"]

/-! ### fingerprint.go: `browserFingerprints` and `selectFingerprint` -/

/-- The key set of the Go map `browserFingerprints` (fingerprint.go). -/
def fingerprintKeys : List String := ["Chrome", "Firefox", "Safari", "Edge"]

/-- Embedding of the `browserFingerprints` map (fingerprint.go); ClientHello
template identifiers are modelled by their `utls` constant names. -/
def browserFingerprints (family : String) : List String :=
  if family = "Chrome" then ["HelloChrome_Auto", "HelloChrome_120"]
  else if family = "Firefox" then ["HelloFirefox_Auto", "HelloFirefox_120"]
  else if family = "Safari" then ["HelloSafari_Auto", "HelloSafari_16_0", "HelloIOS_Auto"]
  else if family = "Edge" then ["HelloEdge_Auto", "HelloChrome_120"]
  else []

/-- Embedding of the family-resolution loop inside `selectFingerprint`
(fingerprint.go): the first key of the map-iteration order `order` whose
name occurs in the user-agent wins, defaulting to "Chrome".  Go map
iteration order is unspecified, so `order` (a permutation of
`fingerprintKeys`) is an explicit parameter. -/
def selectFamilyFP (userAgent : String) (order : List String) : String :=
  (order.find? (fun b => strContainsStr userAgent b)).getD "Chrome"

/-- Embedding of `selectFingerprint` (fingerprint.go).  `idx` models the
value of `r.Intn(len(fingerprints))`; it is reduced modulo the list length
exactly as `Intn` bounds it. -/
def selectFingerprint (userAgent : String) (randomize : Bool)
    (order : List String) (idx : Nat) : String :=
  if randomize then "HelloRandomized"
  else
    let fps := browserFingerprints (selectFamilyFP userAgent order)
    fps.getD (idx % fps.length) "HelloChrome_Auto"

/-! ### client.go: `checkRedirect` and the redirect loop of `http.Client.do` -/

/-- Embedding of the hop-limit test of `checkRedirect` (client.go) as a
function of `len(via)`, the number of requests already made in the chain.
The header re-stamping side effects do not influence accept/reject. -/
def checkRedirect (viaLen : Nat) : Except String Unit :=
  if 10 ≤ viaLen then Except.error "stopped after 10 redirects" else Except.ok ()

/-- The redirect loop of Go's `http.Client.do` under the custom
`checkRedirect` policy: `made` requests have been sent, the latest response
is a redirect whenever redirect responses remain; before each follow-up
request the policy is consulted with `via = ` the requests already made.
Returns the total number of requests of the completed chain. -/
def redirectLoop : Nat → Nat → Except String Nat
  | 0, made => Except.ok made
  | k + 1, made =>
    match checkRedirect made with
    | Except.error e => Except.error e
    | Except.ok _ => redirectLoop k (made + 1)

/-- A whole client call against a server that answers the first
`redirectResponses` requests with redirects and the next one with a final
response: the initial request is sent, then the loop runs. -/
def clientDo (redirectResponses : Nat) : Except String Nat :=
  redirectLoop redirectResponses 1

/-! ### client.go: `GetWithRetry` -/

/-- Outcome of one `bc.Get` attempt: a request-level error or a response
carrying a status code. -/
inductive Outcome where
  | err (e : String)
  | resp (status : Nat)
deriving DecidableEq

/-- The value stored into `lastErr` after an attempt: the message of a
request-level error, Go `nil` (here `none`) when a response arrived. -/
def errOf : Outcome → Option String
  | Outcome.err e => some e
  | Outcome.resp _ => none

/-- True when an attempt outcome makes `GetWithRetry` loop again: a
request-level error or a server-error status (≥ 500). -/
def retriable : Outcome → Bool
  | Outcome.err _ => true
  | Outcome.resp s => 500 ≤ s

/-- Embedding of the loop of `GetWithRetry` (client.go).  `net i` is the
outcome of attempt `i`; `remaining` counts iterations still allowed
(initially `maxRetries + 1`); the third argument is the running `lastErr`.
The backoff sleeps (1s doubling, capped at 30s) do not influence the
returned value and are omitted from the value-level model. -/
def retryGo (net : Nat → Outcome) (maxRetries : Nat) :
    Nat → Nat → Option String → Except (Nat × Option String) Nat
  | 0, _, last => Except.error (maxRetries, last)
  | r + 1, i, _ =>
    match net i with
    | Outcome.err e => retryGo net maxRetries r (i + 1) (some e)
    | Outcome.resp s =>
      if s < 500 then Except.ok s
      else retryGo net maxRetries r (i + 1) none

/-- Embedding of `GetWithRetry` (client.go): at most `maxRetries + 1`
attempts, starting with `lastErr = nil`; on exhaustion the error wraps
`maxRetries` and the final `lastErr`. -/
def getWithRetry (net : Nat → Outcome) (maxRetries : Nat) :
    Except (Nat × Option String) Nat :=
  retryGo net maxRetries (maxRetries + 1) 0 none

/-- Attempt sequence refuting the "wraps the last request-level error"
part of C4: attempt 0 fails with a request-level error, attempt 1 gets a
503 response. -/
def c4netCex : Nat → Outcome := fun i =>
  if i = 0 then Outcome.err "connection reset" else Outcome.resp 503

/-- Attempt sequence for the C4 witness: one 503, then a 200. -/
def c4netW : Nat → Outcome := fun i =>
  if i = 0 then Outcome.resp 503 else Outcome.resp 200

/-! ### Header Engine (second part of client.go): `generateHeaders`,
`BuildHeaders` and their helpers -/

/-- Embedding of `getNavigationAccept`. -/
def getNavigationAccept (browser : String) : String :=
  if browser = "Firefox" then
    "text/html,application/xhtml+xml,application/xml;q=0.9,image/avif,image/webp,*/*;q=0.8"
  else if browser = "Safari" then
    "text/html,application/xhtml+xml,application/xml;q=0.9,*/*;q=0.8"
  else
    "text/html,application/xhtml+xml,application/xml;q=0.9,image/avif,image/webp,image/apng,*/*;q=0.8,application/signed-exchange;v=b3;q=0.7"

/-- The extension extraction inside `getResourceAccept`: Go
`strings.ToLower(path[strings.LastIndex(path, ".")+1:])` — the text after
the last dot, the whole path (lowercased) when no dot occurs. -/
def extOf (path : String) : String :=
  let cs := path.data
  if cs.contains '.' then
    String.mk (((cs.reverse.takeWhile (fun c => c != '.')).reverse).map Char.toLower)
  else String.mk (cs.map Char.toLower)

/-- Embedding of `getResourceAccept`. -/
def getResourceAccept (path : String) : String :=
  let ext := extOf path
  if ext = "js" then "*/*"
  else if ext = "css" then "text/css,*/*;q=0.1"
  else if ext = "jpg" ∨ ext = "jpeg" ∨ ext = "png" ∨ ext = "gif" ∨ ext = "webp" then
    "image/avif,image/webp,image/apng,image/svg+xml,image/*,*/*;q=0.8"
  else "*/*"

/-- Embedding of `getAcceptEncoding`. -/
def getAcceptEncoding (browser : String) : String :=
  if browser = "Safari" then "gzip, deflate, br" else "gzip, deflate, br, zstd"

/-- Embedding of `HeaderBuilder.getSecFetchSite` as a function of the
context fields it reads. -/
def getSecFetchSite (ref org : String) : String :=
  if ref = "" then "none"
  else if org ≠ "" ∧ strHasPre ref org = true then "same-origin"
  else "cross-site"

/-- Embedding of `HeaderBuilder.getSecFetchMode`. -/
def getSecFetchMode (nav : Bool) : String :=
  if nav then "navigate" else "no-cors"

/-- Embedding of `HeaderBuilder.getSecFetchDest`. -/
def getSecFetchDest (nav : Bool) : String :=
  if nav then "document" else "empty"

/-- The Chrome version extraction of `addChromeHeaders`: text between
"Chrome/" and the following dot, "126" when "Chrome/" does not occur. -/
def chromeVersion (ua : String) : String :=
  match ua.splitOn "Chrome/" with
  | _ :: m1 :: _ => (m1.splitOn ".").headD "126"
  | _ => "126"

/-- Leading-decimal parse standing for `fmt.Sscanf(s, "%d", &version)`:
`none` when `s` does not start with a digit. -/
def parseDecimal (s : String) : Option Nat :=
  let ds := s.data.takeWhile Char.isDigit
  if ds.isEmpty then none
  else some (ds.foldl (fun n c => n * 10 + (c.toNat - 48)) 0)

/-- The Firefox version extraction of `addFirefoxHeaders`: the number
after "Firefox/" up to the following dot, 126 when absent or unparsable. -/
def firefoxVersion (ua : String) : Nat :=
  match ua.splitOn "Firefox/" with
  | _ :: m1 :: _ => (parseDecimal ((m1.splitOn ".").headD "")).getD 126
  | _ => 126

/-- One decile draw per `rand.Float32()` call of `generateHeaders` and the
family augmentation it dispatches to (the thresholds 0.3, 0.7, 0.3, 0.2,
0.4 are all tenths, so deciles model the comparisons exactly). -/
structure Draws where
  chromePlat : Fin 10
  te : Fin 10
  dnt : Fin 10
  cache1 : Fin 10
  cache2 : Fin 10
deriving DecidableEq

/-- The draw event `r.Float32() < 0.3` guarding the `DNT` header. -/
def dntOn (d : Fin 10) : Bool := d.val < 3

/-- The two-draw `Cache-Control` decision of `generateHeaders`: first draw
< 0.2 gives "no-cache"; otherwise a FRESH draw < 0.4 gives "max-age=0";
otherwise no Cache-Control header. -/
def cacheDecision (d1 d2 : Fin 10) : Option String :=
  if d1.val < 2 then some "no-cache"
  else if d2.val < 4 then some "max-age=0"
  else none

/-- Go map assignment `headers[k] = v`: any existing entry for `k` is
replaced.  Header collections are modelled as association lists with
at most one entry per key. -/
def setH (hs : List (String × String)) (k v : String) : List (String × String) :=
  hs.filter (fun kv => kv.1 != k) ++ [(k, v)]

/-- The keys of a header collection. -/
def keysOf (hs : List (String × String)) : List String := hs.map Prod.fst

/-- Key-presence test on a header collection. -/
def hasKey (hs : List (String × String)) (k : String) : Bool :=
  (keysOf hs).contains k

/-- Go `headers[k]` / `req.Header.Get(k)` on the model. -/
def lookupH (hs : List (String × String)) (k : String) : Option String :=
  (hs.find? (fun kv => kv.1 == k)).map Prod.snd

/-- The `platform` local of `addChromeHeaders`: "Macintosh" → macOS,
"X11" → Linux, default Windows. -/
def chromePlatform (ua : String) : String :=
  if strContainsStr ua "Macintosh" then "macOS"
  else if strContainsStr ua "X11" then "Linux"
  else "Windows"

/-- Embedding of `HeaderBuilder.addChromeHeaders`. -/
def addChromeHeaders (ua : String) (nav : Bool) (ref org : String) (d : Draws)
    (hs : List (String × String)) : List (String × String) :=
  let version := chromeVersion ua
  let hs := setH hs "Sec-Ch-Ua"
    ("\"Not)A;Brand\";v=\"99\", \"Google Chrome\";v=\"" ++ version ++
     "\", \"Chromium\";v=\"" ++ version ++ "\"")
  let hs := setH hs "Sec-Ch-Ua-Mobile" "?0"
  let hs := setH hs "Sec-Ch-Ua-Platform" ("\"" ++ chromePlatform ua ++ "\"")
  let hs := setH hs "Sec-Fetch-Site" (getSecFetchSite ref org)
  let hs := setH hs "Sec-Fetch-Mode" (getSecFetchMode nav)
  let hs := setH hs "Sec-Fetch-Dest" (getSecFetchDest nav)
  let hs :=
    if nav then setH (setH hs "Sec-Fetch-User" "?1") "Upgrade-Insecure-Requests" "1"
    else hs
  if d.chromePlat.val < 3 then setH hs "Sec-Ch-Ua-Platform-Version" "\"10.0.0\"" else hs

/-- Embedding of `HeaderBuilder.addFirefoxHeaders`. -/
def addFirefoxHeaders (ua : String) (nav : Bool) (ref org : String) (d : Draws)
    (hs : List (String × String)) : List (String × String) :=
  let hs := setH hs "Upgrade-Insecure-Requests" "1"
  let hs :=
    if 90 ≤ firefoxVersion ua then
      let hs := setH hs "Sec-Fetch-Dest" (getSecFetchDest nav)
      let hs := setH hs "Sec-Fetch-Mode" (getSecFetchMode nav)
      let hs := setH hs "Sec-Fetch-Site" (getSecFetchSite ref org)
      if nav then setH hs "Sec-Fetch-User" "?1" else hs
    else hs
  if d.te.val < 7 then setH hs "TE" "trailers" else hs

/-- Embedding of `HeaderBuilder.addSafariHeaders`: `Upgrade-Insecure-Requests`
only when navigating, a fixed `Accept-Encoding`, and no `Sec-Fetch-*`. -/
def addSafariHeaders (nav : Bool) (hs : List (String × String)) :
    List (String × String) :=
  let hs := if nav then setH hs "Upgrade-Insecure-Requests" "1" else hs
  setH hs "Accept-Encoding" "gzip, deflate, br"

/-- Embedding of `HeaderBuilder.generateHeaders` (second part of client.go):
common headers, context-dependent Accept, family augmentation, conditional
Referer/Origin, then the probabilistic `DNT` and `Cache-Control`. -/
def generateHeaders (ua lang : String) (nav : Bool) (ref org reqPath : String)
    (d : Draws) : List (String × String) :=
  let browser := detectBrowser ua
  let hs : List (String × String) := []
  let hs := setH hs "User-Agent" ua
  let hs := setH hs "Accept-Language" lang
  let hs := setH hs "Connection" "keep-alive"
  let hs := setH hs "Accept"
    (if nav then getNavigationAccept browser else getResourceAccept reqPath)
  let hs := setH hs "Accept-Encoding" (getAcceptEncoding browser)
  let hs :=
    if browser = "Chrome" then addChromeHeaders ua nav ref org d hs
    else if browser = "Firefox" then addFirefoxHeaders ua nav ref org d hs
    else if browser = "Safari" then addSafariHeaders nav hs
    else hs
  let hs := if ref ≠ "" then setH hs "Referer" ref else hs
  let hs := if org ≠ "" ∧ nav = false then setH hs "Origin" org else hs
  let hs := if dntOn d.dnt then setH hs "DNT" "1" else hs
  match cacheDecision d.cache1 d.cache2 with
  | some v => setH hs "Cache-Control" v
  | none => hs

/-- Embedding of the per-family `headerOrder` map; the map has no "Edge"
key, so Edge yields the empty (nil) order and `BuildHeaders` falls back to
the Chrome order. -/
def headerOrder (browser : String) : List String :=
  if browser = "Chrome" then
    ["Host", "Connection", "Cache-Control", "Sec-Ch-Ua", "Sec-Ch-Ua-Mobile",
     "Sec-Ch-Ua-Platform", "Upgrade-Insecure-Requests", "User-Agent", "Accept",
     "Sec-Fetch-Site", "Sec-Fetch-Mode", "Sec-Fetch-User", "Sec-Fetch-Dest",
     "Accept-Encoding", "Accept-Language", "Cookie"]
  else if browser = "Firefox" then
    ["Host", "User-Agent", "Accept", "Accept-Language", "Accept-Encoding",
     "Connection", "Upgrade-Insecure-Requests", "Sec-Fetch-Dest", "Sec-Fetch-Mode",
     "Sec-Fetch-Site", "Sec-Fetch-User", "Cache-Control", "Cookie"]
  else if browser = "Safari" then
    ["Host", "Accept-Encoding", "Accept", "User-Agent", "Accept-Language",
     "Connection", "Cookie"]
  else []

/-- Embedding of `HeaderBuilder.BuildHeaders`: the generated set is written
in the family's canonical order first, then the remaining generated headers
are appended.  (Go iterates the remainder in map order; the model appends
in generation order, which fixes one of the legal orders.) -/
def buildHeaders (ua lang : String) (nav : Bool) (ref org reqPath : String)
    (d : Draws) : List (String × String) :=
  let browser := detectBrowser ua
  let hs := generateHeaders ua lang nav ref org reqPath d
  let order0 := headerOrder browser
  let order := if order0 = [] then headerOrder "Chrome" else order0
  let ordered := order.foldl (fun acc k =>
    match lookupH hs k with
    | some v => acc ++ [(k, v)]
    | none => acc) []
  hs.foldl (fun acc kv => if (lookupH acc kv.1).isSome then acc else acc ++ [kv]) ordered

/-! ### Structural lemmas about the header-collection model -/

/-! ### client.go: `updateHistory` -/

/-- Embedding of `updateHistory` (client.go): append the URL, then drop the
oldest entry when the length exceeds 10. -/
def updateHistory (history : List String) (url : String) : List String :=
  let h2 := history ++ [url]
  if 10 < h2.length then h2.drop 1 else h2

/-! ### stream.go: `StreamResponse`

The decompressed body is modelled as the list of the lines
`bufReader.ReadString` yields (each line nonempty, ending in the newline
except possibly a final partial line), followed by how the stream ends
(EOF or a read error).  Byte counts are accumulated per consumed line;
the byte-for-byte read-ahead of the buffered reader is abstracted away.
Decompression itself is an external codec (out of scope per the spec);
the lines are the already-decompressed text. -/

structure StreamConfig where
  StopOnContent : String
  BufferSize : Nat
  MaxBytes : Nat
deriving DecidableEq

structure StreamResult where
  BytesRead : Nat
  Content : String
  FoundContent : Bool
deriving DecidableEq

inductive StreamEnding where
  | eof
  | fail (e : String)
deriving DecidableEq

/-- Total byte count of a list of lines. -/
def bytesOf (ls : List String) : Nat := (ls.map String.length).sum

/-- Concatenation of a list of lines. -/
def concatOf : List String → String
  | [] => ""
  | l :: rest => l ++ concatOf rest

/-- The per-line stop test of `StreamResponse` (stream.go):
`stopContent != "" && strings.Contains(line, stopContent)`. -/
def lineStops (cfg : StreamConfig) (l : String) : Prop :=
  cfg.StopOnContent ≠ "" ∧ strContainsStr l cfg.StopOnContent = true

instance (cfg : StreamConfig) (l : String) : Decidable (lineStops cfg l) := by
  unfold lineStops
  infer_instance

/-- Embedding of the read loop of `StreamResponse` (stream.go): before each
read the byte ceiling is tested (`MaxBytes > 0 && BytesRead >= MaxBytes`);
a read line is appended to the content and tested for the stop-substring;
at end of lines an EOF breaks the loop while any other read error is
returned as a failure. -/
def streamLoop (cfg : StreamConfig) (ending : StreamEnding) :
    List String → Nat → String → Except String StreamResult
  | [], b, acc =>
    if 0 < cfg.MaxBytes ∧ cfg.MaxBytes ≤ b then Except.ok ⟨b, acc, false⟩
    else
      match ending with
      | StreamEnding.eof => Except.ok ⟨b, acc, false⟩
      | StreamEnding.fail e => Except.error e
  | l :: rest, b, acc =>
    if 0 < cfg.MaxBytes ∧ cfg.MaxBytes ≤ b then Except.ok ⟨b, acc, false⟩
    else
      if lineStops cfg l then Except.ok ⟨b + l.length, acc ++ l, true⟩
      else streamLoop cfg ending rest (b + l.length) (acc ++ l)

/-- Embedding of `StreamResponse` (stream.go): run the loop from zero bytes
and empty content. -/
def StreamResponse (cfg : StreamConfig) (lines : List String) (ending : StreamEnding) :
    Except String StreamResult :=
  streamLoop cfg ending lines 0 ""

/-- The stream configuration of the C8 counterexample: a stop-substring
containing a newline (so it can only occur across a line boundary), no
byte ceiling. -/
def c8cfg : StreamConfig := ⟨"a\nb", 8192, 0⟩

/-! ### profile.go: `GetThreadProfile` under concurrency

`GetThreadProfile` does `threadProfiles.Load(threadID)` and, on a miss,
`generateBrowserProfile()` followed by `threadProfiles.Store` — two
separate atomic map operations with a non-atomic gap, not a single
`LoadOrStore`.  The interleaving model below fixes one key and two
threads; each `sync.Map` operation is one atomic step; profiles are
abstracted by the distinct values the two racing `generateBrowserProfile`
calls produce (it draws from a time-seeded PRNG, so two calls may differ). -/

structure RaceState where
  cache : Option Nat
  pcA : Nat
  resA : Option Nat
  pcB : Nat
  resB : Option Nat
deriving DecidableEq

/-- One step of `GetThreadProfile` for a thread whose generated profile is
`v`: pc 0 = about to `Load` (hit returns the cached profile, miss falls
through), pc 1 = about to `Store` the freshly generated profile and return
it, pc 2 = done. -/
def profStep (v : Nat) (cache : Option Nat) (pc : Nat) (res : Option Nat) :
    Option Nat × Nat × Option Nat :=
  match pc with
  | 0 =>
    match cache with
    | some p => (cache, 2, some p)
    | none => (cache, 1, res)
  | 1 => (some v, 2, some v)
  | _ => (cache, pc, res)

/-- Run the two-thread interleaving given by `sched` (`true` = step thread
A, `false` = step thread B), threads A/B generating profiles `vA`/`vB`. -/
def raceRun (vA vB : Nat) : List Bool → RaceState → RaceState
  | [], s => s
  | t :: rest, s =>
    if t then
      let r := profStep vA s.cache s.pcA s.resA
      raceRun vA vB rest { s with cache := r.1, pcA := r.2.1, resA := r.2.2 }
    else
      let r := profStep vB s.cache s.pcB s.resB
      raceRun vA vB rest { s with cache := r.1, pcB := r.2.1, resB := r.2.2 }

/-- Both threads at their `Load`, nothing cached, no results. -/
def raceInit : RaceState := ⟨none, 0, none, 0, none⟩

/-! ### client.go: `mergeOptions` and `Do` -/

structure RequestOptions where
  Headers : Option (List (String × String))
  IsNavigate : Bool
  Referrer : String
  Origin : String
  FollowRedirects : Bool
  MaxRedirects : Int
deriving DecidableEq

structure MergedOptions where
  Headers : List (String × String)
  IsNavigate : Bool
  Referrer : String
  Origin : String
  FollowRedirects : Bool
  MaxRedirects : Int
deriving DecidableEq

/-- Embedding of `mergeOptions` (client.go): session defaults (navigation,
follow redirects, max 10, empty headers), overridden by the first supplied
options value, then the auto-referrer from the most recent history entry
when none is explicit. -/
def mergeOptions (history : List String) (options : Option RequestOptions) :
    MergedOptions :=
  let base : MergedOptions := ⟨[], true, "", "", true, 10⟩
  let opts :=
    match options with
    | none => base
    | some opt =>
      { Headers := opt.Headers.getD base.Headers
        IsNavigate := opt.IsNavigate
        Referrer := if opt.Referrer ≠ "" then opt.Referrer else base.Referrer
        Origin := if opt.Origin ≠ "" then opt.Origin else base.Origin
        FollowRedirects := opt.FollowRedirects
        MaxRedirects := if 0 < opt.MaxRedirects then opt.MaxRedirects else base.MaxRedirects }
  if opts.Referrer = "" ∧ history ≠ [] then
    { opts with Referrer := history.getLastD "" }
  else opts

/-- What a `Do` call observably produces, as a value: the headers put on
the wire (built headers overlaid with the caller's custom headers, caller
wins), the hop limit its redirect policy enforces (`checkRedirect` is
installed at construction with the hardcoded 10), and the history after
the request. -/
structure DoObservation where
  headers : List (String × String)
  redirectLimit : Nat
  newHistory : List String
deriving DecidableEq

/-- Embedding of `Do` (client.go) as a function of the session state and
request data: merge options, set the header-builder context, build
headers, overlay custom headers, record the URL in the history; redirects
are governed by the session-wide `checkRedirect` with its hardcoded limit.
The merged `FollowRedirects` and `MaxRedirects` fields are computed by
`mergeOptions` but never read afterwards, exactly as in the source. -/
def doModel (ua lang reqPath url : String) (d : Draws)
    (history : List String) (options : Option RequestOptions) : DoObservation :=
  let opts := mergeOptions history options
  let base := buildHeaders ua lang opts.IsNavigate opts.Referrer opts.Origin reqPath d
  let final := opts.Headers.foldl (fun hs kv => setH hs kv.1 kv.2) base
  { headers := final
    redirectLimit := 10
    newHistory := updateHistory history url }

/-! ### Theorems -/

theorem redirectLoop_ok (k : Nat) : ∀ made, made + k ≤ 10 →
    redirectLoop k made = Except.ok (made + k) := by
  induction k with
  | zero => intro made _; simp [redirectLoop]
  | succ n ih =>
    intro made h
    have hlt : ¬ 10 ≤ made := by omega
    simp only [redirectLoop, checkRedirect, if_neg hlt]
    have := ih (made + 1) (by omega)
    rw [this]
    congr 1
    omega

theorem redirectLoop_err (k : Nat) : ∀ made, 1 ≤ k → made ≤ 10 → 11 ≤ made + k →
    redirectLoop k made = Except.error "stopped after 10 redirects" := by
  induction k with
  | zero => intro made h _ _; omega
  | succ n ih =>
    intro made _ hle hsum
    by_cases h10 : 10 ≤ made
    · simp only [redirectLoop, checkRedirect, if_pos h10]
    · simp only [redirectLoop, checkRedirect, if_neg h10]
      exact ih (made + 1) (by omega) (by omega) (by omega)

/-- C3: under the default policy a redirect chain of exactly 10 hops
(10 requests, i.e. 9 followed redirects) completes successfully, while a
chain of 11 hops (10 redirect responses) fails with the explicit hop-limit
error; in general a chain completes exactly when it stays within 10
requests. -/
theorem redirect_hop_limit :
    clientDo 9 = Except.ok 10 ∧
    clientDo 10 = Except.error "stopped after 10 redirects" ∧
    ∀ n, clientDo n =
      if n ≤ 9 then Except.ok (n + 1) else Except.error "stopped after 10 redirects" := by
  refine ⟨?_, ?_, ?_⟩
  · have := redirectLoop_ok 9 1 (by omega)
    simpa [clientDo] using this
  · exact redirectLoop_err 10 1 (by omega) (by omega) (by omega)
  · intro n
    by_cases h : n ≤ 9
    · rw [if_pos h]
      have := redirectLoop_ok n 1 (by omega)
      simpa [clientDo, Nat.add_comm] using this
    · rw [if_neg h]
      exact redirectLoop_err n 1 (by omega) (by omega) (by omega)

theorem retryGo_succ (net : Nat → Outcome) (N r i : Nat) (last : Option String) :
    retryGo net N (r + 1) i last =
      match net i with
      | Outcome.err e => retryGo net N r (i + 1) (some e)
      | Outcome.resp s =>
        if s < 500 then Except.ok s else retryGo net N r (i + 1) none := rfl

theorem retryGo_first_success (net : Nat → Outcome) (N : Nat) :
    ∀ j r i last s, j < r → (∀ k, k < j → retriable (net (i + k)) = true) →
      net (i + j) = Outcome.resp s → s < 500 →
      retryGo net N r i last = Except.ok s := by
  intro j
  induction j with
  | zero =>
    intro r i last s hjr _ hresp hs
    obtain ⟨r', rfl⟩ : ∃ r', r = r' + 1 := ⟨r - 1, by omega⟩
    rw [show i + 0 = i from rfl] at hresp
    simp [retryGo, hresp, hs]
  | succ n ih =>
    intro r i last s hjr hpre hresp hs
    obtain ⟨r', rfl⟩ : ∃ r', r = r' + 1 := ⟨r - 1, by omega⟩
    have h0 : retriable (net i) = true := by
      simpa using hpre 0 (by omega)
    have hresp' : net (i + 1 + n) = Outcome.resp s := by
      simpa [Nat.add_assoc, Nat.add_comm 1 n] using hresp
    have hpre' : ∀ k, k < n → retriable (net (i + 1 + k)) = true := fun k hk => by
      have := hpre (k + 1) (by omega)
      simpa [Nat.add_assoc, Nat.add_comm 1 k] using this
    cases hni : net i with
    | err e =>
      rw [retryGo_succ]
      simp only [hni]
      exact ih r' (i + 1) (some e) s (by omega) hpre' hresp' hs
    | resp s0 =>
      rw [hni] at h0
      have h500 : ¬ s0 < 500 := by
        simp [retriable] at h0
        omega
      rw [retryGo_succ]
      simp only [hni, if_neg h500]
      exact ih r' (i + 1) none s (by omega) hpre' hresp' hs

theorem retryGo_exhaust (net : Nat → Outcome) (N : Nat) :
    ∀ r i last, 1 ≤ r → (∀ k, k < r → retriable (net (i + k)) = true) →
      retryGo net N r i last = Except.error (N, errOf (net (i + r - 1))) := by
  intro r
  induction r with
  | zero => intro i last h _; omega
  | succ n ih =>
    intro i last _ hall
    have h0 : retriable (net i) = true := by
      simpa using hall 0 (by omega)
    have hall' : ∀ k, k < n → retriable (net (i + 1 + k)) = true := fun k hk => by
      have := hall (k + 1) (by omega)
      simpa [Nat.add_assoc, Nat.add_comm 1 k] using this
    have hidx : i + 1 + n - 1 = i + (n + 1) - 1 := by omega
    cases hni : net i with
    | err e =>
      rw [retryGo_succ]
      simp only [hni]
      cases n with
      | zero => simp [retryGo, hni, errOf]
      | succ m =>
        rw [ih (i + 1) (some e) (by omega) hall',
          show i + 1 + (m + 1) - 1 = i + (m + 1 + 1) - 1 from by omega]
    | resp s0 =>
      rw [hni] at h0
      have h500 : ¬ s0 < 500 := by
        simp [retriable] at h0
        omega
      rw [retryGo_succ]
      simp only [hni, if_neg h500]
      cases n with
      | zero => simp [retryGo, hni, errOf]
      | succ m =>
        rw [ih (i + 1) none (by omega) hall',
          show i + 1 + (m + 1) - 1 = i + (m + 1 + 1) - 1 from by omega]

theorem retryGo_window (net net' : Nat → Outcome) (N : Nat) :
    ∀ r i last, (∀ k, k < r → net' (i + k) = net (i + k)) →
      retryGo net' N r i last = retryGo net N r i last := by
  intro r
  induction r with
  | zero => intro i last _; rfl
  | succ n ih =>
    intro i last hagree
    have h0 : net' i = net i := by
      simpa using hagree 0 (by omega)
    have hagree' : ∀ k, k < n → net' (i + 1 + k) = net (i + 1 + k) := fun k hk => by
      have := hagree (k + 1) (by omega)
      simpa [Nat.add_assoc, Nat.add_comm 1 k] using this
    cases hni : net i with
    | err e =>
      rw [retryGo_succ, retryGo_succ, h0]
      simp only [hni]
      exact ih (i + 1) (some e) hagree'
    | resp s =>
      by_cases hs : s < 500
      · rw [retryGo_succ, retryGo_succ, h0]
        simp [hni, hs]
      · rw [retryGo_succ, retryGo_succ, h0]
        simp only [hni, if_neg hs]
        exact ih (i + 1) none hagree'

/-- C4 counterexample: with maxRetries = 1 against `c4netCex`, the last
request-level error of the run is "connection reset" (attempt 0), yet the
exhaustion error wraps `none` — `lastErr` was overwritten with Go `nil` by
the final 503 response — so the returned error does not wrap the last
request-level error. -/
theorem getWithRetry_lastErr_cex :
    getWithRetry c4netCex 1 = Except.error (1, (none : Option String)) ∧
    errOf (c4netCex 0) = some "connection reset" ∧
    (none : Option String) ≠ some "connection reset" := by
  refine ⟨rfl, rfl, by simp⟩

/-- C4 (amended): `GetWithRetry` with maxRetries = N (i) returns
`Except.ok s` for the first attempt `j ≤ N` whose outcome is a response
with status `s < 500` when every earlier attempt was retriable
(request-level error or status ≥ 500) — so 4xx is terminal; (ii) when all
`N + 1` attempts are retriable it returns an error wrapping the retry
count `N` together with the FINAL attempt's request-level error (`none`
when the final attempt yielded a ≥500 response); (iii) the result depends
only on attempts `0..N`, i.e. at most N additional attempts after the
first are ever consulted. -/
theorem getWithRetry_spec (net net' : Nat → Outcome) (N : Nat) :
    (∀ j s, j ≤ N → net j = Outcome.resp s → s < 500 →
      (∀ k, k < j → retriable (net k) = true) →
      getWithRetry net N = Except.ok s) ∧
    ((∀ k, k ≤ N → retriable (net k) = true) →
      getWithRetry net N = Except.error (N, errOf (net N))) ∧
    ((∀ k, k ≤ N → net' k = net k) →
      getWithRetry net' N = getWithRetry net N) := by
  refine ⟨?_, ?_, ?_⟩
  · intro j s hj hresp hs hpre
    exact retryGo_first_success net N j (N + 1) 0 none s (by omega)
      (fun k hk => by simpa using hpre k hk) (by simpa using hresp) hs
  · intro hall
    have := retryGo_exhaust net N (N + 1) 0 none (by omega)
      (fun k hk => by simpa using hall k (by omega))
    simpa [getWithRetry] using this
  · intro hagree
    exact retryGo_window net net' N (N + 1) 0 none
      (fun k hk => by simpa using hagree k (by omega))

/-- C4 witness: `getWithRetry_spec` applied at `c4netW` with maxRetries = 3
returns the 200 of attempt 1. -/
theorem getWithRetry_spec_witness :
    getWithRetry c4netW 3 = Except.ok 200 :=
  (getWithRetry_spec c4netW c4netW 3).1 1 200 (by omega) rfl (by omega)
    (by decide)

theorem mem_setH {kv : String × String} {hs : List (String × String)} {k v : String} :
    kv ∈ setH hs k v ↔ kv = (k, v) ∨ (kv ∈ hs ∧ kv.1 ≠ k) := by
  simp only [setH, List.mem_append, List.mem_filter, List.mem_singleton, bne_iff_ne]
  tauto

theorem mem_setH_ne {kv : String × String} {hs : List (String × String)} {k v : String}
    (hne : kv.1 ≠ k) : kv ∈ setH hs k v ↔ kv ∈ hs := by
  rw [mem_setH]
  constructor
  · rintro (rfl | ⟨hm, _⟩)
    · exact absurd rfl hne
    · exact hm
  · intro hm
    exact Or.inr ⟨hm, hne⟩

theorem mem_setH_self {hs : List (String × String)} {k v v' : String} :
    (k, v') ∈ setH hs k v ↔ v' = v := by
  rw [mem_setH]
  simp [Prod.ext_iff]

theorem mem_ite {kv : String × String} {c : Prop} [Decidable c]
    {f g : List (String × String)} :
    (kv ∈ if c then f else g) ↔ (if c then kv ∈ f else kv ∈ g) := by
  split_ifs <;> rfl

theorem all_setH {p : String × String → Bool} {hs : List (String × String)} {k v : String}
    (h1 : hs.all p = true) (h2 : p (k, v) = true) : (setH hs k v).all p = true := by
  rw [List.all_eq_true] at h1 ⊢
  intro kv hkv
  rcases List.mem_append.mp hkv with hmem | hmem
  · exact h1 _ (List.mem_of_mem_filter hmem)
  · rw [List.mem_singleton.mp hmem]
    exact h2

theorem hasKey_true_iff {hs : List (String × String)} {k : String} :
    hasKey hs k = true ↔ ∃ v, (k, v) ∈ hs := by
  rw [hasKey, List.elem_iff]
  simp only [keysOf, List.mem_map, Prod.exists]
  constructor
  · rintro ⟨a, b, hmem, rfl⟩
    exact ⟨b, hmem⟩
  · rintro ⟨v, hmem⟩
    exact ⟨k, v, hmem, rfl⟩

theorem hasKey_false_iff {hs : List (String × String)} {k : String} :
    hasKey hs k = false ↔ ∀ v, (k, v) ∉ hs := by
  rw [← Bool.not_eq_true, hasKey_true_iff]
  push_neg
  rfl

set_option maxRecDepth 4000 in
theorem safari_noSecFetch_aux (ua lang ref org reqPath : String) (nav : Bool) (d : Draws)
    (h : detectBrowser ua = "Safari") :
    (generateHeaders ua lang nav ref org reqPath d).all
      (fun kv => !strHasPre kv.1 "Sec-Fetch-") = true := by
  simp only [generateHeaders, h]
  rw [if_neg (by decide : ¬("Safari" : String) = "Chrome"),
    if_neg (by decide : ¬("Safari" : String) = "Firefox")]
  simp only [if_true, addSafariHeaders]
  rcases hcd : cacheDecision d.cache1 d.cache2 with _ | v <;>
    split_ifs <;>
    (repeat refine all_setH ?_ (by rfl)) <;> rfl

set_option maxRecDepth 4000 in
theorem safari_uir_aux (ua lang ref org reqPath : String) (nav : Bool) (d : Draws)
    (h : detectBrowser ua = "Safari") :
    hasKey (generateHeaders ua lang nav ref org reqPath d)
      "Upgrade-Insecure-Requests" = nav := by
  simp only [generateHeaders, h]
  rw [if_neg (by decide : ¬("Safari" : String) = "Chrome"),
    if_neg (by decide : ¬("Safari" : String) = "Firefox")]
  simp only [if_true, addSafariHeaders]
  cases nav <;>
    simp only [Bool.false_eq_true, if_false, if_true] <;>
    rcases hcd : cacheDecision d.cache1 d.cache2 with _ | v <;>
    split_ifs <;>
    first
      | exact hasKey_true_iff.mpr ⟨"1", by simp [mem_setH]⟩
      | exact hasKey_false_iff.mpr (fun v0 => by simp [mem_setH])

/-- C5: for every request context and every random draw, the header set
generated for a profile that resolves to the Safari family contains no key
beginning with "Sec-Fetch-", and contains "Upgrade-Insecure-Requests"
exactly when the context is a navigation. -/
theorem safari_header_contract (ua lang ref org reqPath : String) (nav : Bool) (d : Draws)
    (h : detectBrowser ua = "Safari") :
    (generateHeaders ua lang nav ref org reqPath d).all
      (fun kv => !strHasPre kv.1 "Sec-Fetch-") = true ∧
    hasKey (generateHeaders ua lang nav ref org reqPath d)
      "Upgrade-Insecure-Requests" = nav :=
  ⟨safari_noSecFetch_aux ua lang ref org reqPath nav d h,
   safari_uir_aux ua lang ref org reqPath nav d h⟩

/-- C5 witness: the contract evaluated at the Safari user-agent of the
profile pool, a navigation context and a fixed draw. -/
theorem safari_header_contract_witness :
    (generateHeaders (userAgents.getD 7 "") "pt-BR,pt;q=0.9" true "" "" ""
        ⟨0, 0, 0, 5, 5⟩).all (fun kv => !strHasPre kv.1 "Sec-Fetch-") = true ∧
    hasKey (generateHeaders (userAgents.getD 7 "") "pt-BR,pt;q=0.9" true "" "" ""
        ⟨0, 0, 0, 5, 5⟩) "Upgrade-Insecure-Requests" = true :=
  safari_header_contract (userAgents.getD 7 "") "pt-BR,pt;q=0.9" "" "" "" true
    ⟨0, 0, 0, 5, 5⟩ (by decide)

set_option maxRecDepth 8000 in
theorem dnt_cache_bridge (ua lang : String) (nav : Bool) (ref org reqPath : String)
    (d : Draws) :
    (("DNT", "1") ∈ generateHeaders ua lang nav ref org reqPath d ↔ dntOn d.dnt = true) ∧
    (∀ v, ("Cache-Control", v) ∈ generateHeaders ua lang nav ref org reqPath d ↔
      cacheDecision d.cache1 d.cache2 = some v) := by
  simp only [generateHeaders, addChromeHeaders, addFirefoxHeaders, addSafariHeaders]
  rcases hcd : cacheDecision d.cache1 d.cache2 with _ | w <;>
    constructor <;>
    (simp [mem_ite, mem_setH_ne, mem_setH_self];
      try (intro v; exact eq_comm))

/-- C6 counterexample: the claim gives the "max-age=0" branch probability
≈0.2, but the code takes a FRESH draw compared against 0.4 after a first
draw ≥ 0.2, so "max-age=0" occurs in 32 of the 100 equiprobable decile
pairs (probability 0.32, not 0.2); one such pair is exhibited inside a
full generated header set. -/
theorem cacheControl_maxAge_cex :
    ((Finset.univ : Finset (Fin 10 × Fin 10)).filter
      (fun p => cacheDecision p.1 p.2 = some "max-age=0")).card = 32 ∧
    ("Cache-Control", "max-age=0") ∈
      generateHeaders (userAgents.getD 7 "") "pt-BR,pt;q=0.9" true "" "" ""
        ⟨0, 0, 0, 2, 0⟩ ∧
    (32 : Nat) ≠ 20 := by
  refine ⟨by decide, by decide, by decide⟩

/-- C6 (amended): over the uniform decile model of the code's draws, a
generated header set includes `DNT: 1` with probability 3/10 = 0.3 and
includes `Cache-Control` with value "no-cache" with probability 20/100 =
0.2 — as claimed — but includes "max-age=0" with probability 32/100 = 0.32
(a fresh draw < 0.4 taken only when the first draw ≥ 0.2) and omits
Cache-Control with probability 48/100; membership of these headers in any
generated set is exactly the corresponding draw event, for every profile
and context. -/
theorem probabilisticHeaders_freq :
    ((Finset.univ : Finset (Fin 10)).filter (fun v => dntOn v = true)).card = 3 ∧
    ((Finset.univ : Finset (Fin 10 × Fin 10)).filter
      (fun p => cacheDecision p.1 p.2 = some "no-cache")).card = 20 ∧
    ((Finset.univ : Finset (Fin 10 × Fin 10)).filter
      (fun p => cacheDecision p.1 p.2 = some "max-age=0")).card = 32 ∧
    ((Finset.univ : Finset (Fin 10 × Fin 10)).filter
      (fun p => cacheDecision p.1 p.2 = none)).card = 48 ∧
    ∀ ua lang nav ref org reqPath d,
      (("DNT", "1") ∈ generateHeaders ua lang nav ref org reqPath d ↔
        dntOn d.dnt = true) ∧
      (∀ v, ("Cache-Control", v) ∈ generateHeaders ua lang nav ref org reqPath d ↔
        cacheDecision d.cache1 d.cache2 = some v) :=
  ⟨by decide, by decide, by decide, by decide,
   fun ua lang nav ref org reqPath d => dnt_cache_bridge ua lang nav ref org reqPath d⟩

/-- C1: the claim says the TLS template chosen by `selectFingerprint`
(randomize = false) always belongs to the family `detectBrowser` resolves,
the two components using one identical resolution function.  The code is
wrong: `selectFingerprint` resolves the family by scanning the keys of the
Go map `browserFingerprints` in (unspecified) map-iteration order with a
bare substring test, so for the pool's first Chrome user-agent — which
contains the substring "Safari" — an iteration order visiting "Safari"
first yields a Safari ClientHello template while the Header Engine's
`detectBrowser` resolves Chrome, and that template lies in no Chrome
template set: a cross-family combination. -/
theorem selectFingerprint_crossFamily :
    (userAgents.getD 0 "") ∈ userAgents ∧
    List.Perm ["Safari", "Chrome", "Firefox", "Edge"] fingerprintKeys ∧
    detectBrowser (userAgents.getD 0 "") = "Chrome" ∧
    selectFingerprint (userAgents.getD 0 "") false
      ["Safari", "Chrome", "Firefox", "Edge"] 0 = "HelloSafari_Auto" ∧
    "HelloSafari_Auto" ∉ browserFingerprints (detectBrowser (userAgents.getD 0 "")) := by
  decide

/-- C2 counterexample: the claim "the result is Edge whenever the string
contains `Edg/`" fails — `detectBrowser` checks Firefox first, so a
user-agent containing both "Firefox" and "Edg/" resolves to Firefox. -/
theorem detectBrowser_edge_cex :
    strContainsStr "Mozilla/5.0 Gecko/20100101 Firefox/126.0 Edg/126.0" "Edg/" = true ∧
    detectBrowser "Mozilla/5.0 Gecko/20100101 Firefox/126.0 Edg/126.0" = "Firefox" ∧
    ("Firefox" : String) ≠ "Edge" := by
  decide

/-- C2 (amended): browser-family resolution is a pure, total function of
the user-agent string into {Chrome, Firefox, Safari, Edge}; the result is
Firefox iff "Firefox" occurs; Safari iff "Safari" occurs without "Chrome"
and without "Firefox"; Edge iff "Edg/" occurs, "Firefox" does not, and it
is not the case that "Safari" occurs without "Chrome"; every other string
resolves to Chrome. -/
theorem detectBrowser_characterization (ua : String) :
    (detectBrowser ua = "Chrome" ∨ detectBrowser ua = "Firefox" ∨
     detectBrowser ua = "Safari" ∨ detectBrowser ua = "Edge") ∧
    (detectBrowser ua = "Firefox" ↔ strContainsStr ua "Firefox" = true) ∧
    (detectBrowser ua = "Safari" ↔
      (strContainsStr ua "Firefox" = false ∧ strContainsStr ua "Safari" = true ∧
       strContainsStr ua "Chrome" = false)) ∧
    (detectBrowser ua = "Edge" ↔
      (strContainsStr ua "Firefox" = false ∧
       ¬(strContainsStr ua "Safari" = true ∧ strContainsStr ua "Chrome" = false) ∧
       strContainsStr ua "Edg/" = true)) := by
  unfold detectBrowser
  split_ifs with h1 h2 h3 <;>
    simp_all [Bool.and_eq_true, Bool.not_eq_true']

theorem updateHistory_drop (l : List String) (u : String) :
    updateHistory (l.drop (l.length - 10)) u =
      (l ++ [u]).drop ((l ++ [u]).length - 10) := by
  by_cases hlen : l.length ≤ 9
  · have h0 : l.length - 10 = 0 := by omega
    have h1 : (l ++ [u]).length - 10 = 0 := by
      simp only [List.length_append, List.length_singleton]
      omega
    rw [h0, h1]
    simp only [List.drop_zero, updateHistory]
    rw [if_neg (by simp only [List.length_append, List.length_singleton]; omega)]
  · have hdlen : (l.drop (l.length - 10)).length = 10 := by
      simp only [List.length_drop]
      omega
    simp only [updateHistory]
    rw [if_pos (by simp only [List.length_append, List.length_singleton, hdlen]; omega)]
    have e1 : (l.drop (l.length - 10) ++ [u]).drop 1 =
        (l.drop (l.length - 10)).drop 1 ++ [u] :=
      List.drop_append_of_le_length (by omega)
    have e2 : (l.drop (l.length - 10)).drop 1 = l.drop (l.length - 9) := by
      rw [List.drop_drop]
      congr 1
      omega
    have e3 : (l ++ [u]).drop ((l ++ [u]).length - 10) = l.drop (l.length - 9) ++ [u] := by
      have h4 : (l ++ [u]).length - 10 = l.length - 9 := by
        simp only [List.length_append, List.length_singleton]
        omega
      rw [h4]
      exact List.drop_append_of_le_length (by omega)
    rw [e1, e2, e3]

/-- C7: starting from the empty history, after any sequence of requests the
history is exactly the last min(k, 10) request URLs in request order
(oldest evicted first), and its length never exceeds 10 — in particular
after 15 requests it holds exactly the last 10. -/
theorem history_lastTen (urls : List String) :
    List.foldl updateHistory [] urls = urls.drop (urls.length - 10) ∧
    (List.foldl updateHistory [] urls).length ≤ 10 := by
  have hrep : ∀ us : List String,
      List.foldl updateHistory [] us = us.drop (us.length - 10) := by
    intro us
    induction us using List.reverseRecOn with
    | nil => rfl
    | append_singleton l u ih =>
      rw [List.foldl_append, List.foldl_cons, List.foldl_nil, ih, updateHistory_drop]
  refine ⟨hrep urls, ?_⟩
  rw [hrep urls]
  simp only [List.length_drop]
  omega

theorem bytesOf_nil : bytesOf ([] : List String) = 0 := rfl

theorem bytesOf_cons (l : String) (ls : List String) :
    bytesOf (l :: ls) = l.length + bytesOf ls := by
  simp [bytesOf]

theorem streamLoop_skip (cfg : StreamConfig) (hmb : cfg.MaxBytes = 0) :
    ∀ (pre lines : List String) (ending : StreamEnding) (b : Nat) (acc : String),
      (∀ l0 ∈ pre, ¬ lineStops cfg l0) →
      streamLoop cfg ending (pre ++ lines) b acc =
        streamLoop cfg ending lines (b + bytesOf pre) (acc ++ concatOf pre) := by
  intro pre
  induction pre with
  | nil =>
    intro lines ending b acc _
    simp [bytesOf, concatOf]
  | cons l rest ih =>
    intro lines ending b acc hpre
    have hl : ¬ lineStops cfg l := hpre l (by simp)
    have hrest : ∀ l0 ∈ rest, ¬ lineStops cfg l0 := fun l0 hm => hpre l0 (by simp [hm])
    simp only [List.cons_append, streamLoop, hmb, List.append_eq]
    rw [if_neg (by omega), if_neg hl, ih lines ending (b + l.length) (acc ++ l) hrest]
    congr 1
    · simp [bytesOf]
      omega
    · rw [String.append_assoc]
      rfl

theorem streamLoop_stop (cfg : StreamConfig) (hmb : cfg.MaxBytes = 0)
    (pre : List String) (l : String) (post : List String) (ending : StreamEnding)
    (hpre : ∀ l0 ∈ pre, ¬ lineStops cfg l0) (hl : lineStops cfg l) :
    StreamResponse cfg (pre ++ l :: post) ending =
      Except.ok ⟨bytesOf pre + l.length, concatOf pre ++ l, true⟩ := by
  rw [StreamResponse, streamLoop_skip cfg hmb pre (l :: post) ending 0 "" hpre]
  simp only [streamLoop, hmb]
  rw [if_neg (by omega), if_pos hl]
  congr 1
  simp

theorem streamLoop_end (cfg : StreamConfig) (hmb : cfg.MaxBytes = 0)
    (lines : List String) (hpre : ∀ l0 ∈ lines, ¬ lineStops cfg l0) :
    StreamResponse cfg lines StreamEnding.eof =
      Except.ok ⟨bytesOf lines, concatOf lines, false⟩ ∧
    ∀ e, StreamResponse cfg lines (StreamEnding.fail e) = Except.error e := by
  constructor
  · have h := streamLoop_skip cfg hmb lines [] StreamEnding.eof 0 "" hpre
    rw [List.append_nil] at h
    rw [StreamResponse, h]
    simp [streamLoop, hmb]
  · intro e
    have h := streamLoop_skip cfg hmb lines [] (StreamEnding.fail e) 0 "" hpre
    rw [List.append_nil] at h
    rw [StreamResponse, h]
    simp [streamLoop, hmb]

theorem streamLoop_ceiling (cfg : StreamConfig) (hmb : 0 < cfg.MaxBytes) :
    ∀ (k : Nat) (lines : List String) (ending : StreamEnding) (b : Nat) (acc : String),
      k ≤ lines.length →
      cfg.MaxBytes ≤ b + bytesOf (lines.take k) →
      (∀ j, j < k → b + bytesOf (lines.take j) < cfg.MaxBytes) →
      (∀ l0 ∈ lines.take k, ¬ lineStops cfg l0) →
      streamLoop cfg ending lines b acc =
        Except.ok ⟨b + bytesOf (lines.take k), acc ++ concatOf (lines.take k), false⟩ := by
  intro k
  induction k with
  | zero =>
    intro lines ending b acc _ hceil _ _
    simp only [List.take_zero, bytesOf, List.map_nil, List.sum_nil, Nat.add_zero] at hceil ⊢
    cases lines with
    | nil =>
      simp only [streamLoop]
      rw [if_pos ⟨hmb, hceil⟩]
      simp [concatOf]
    | cons l rest =>
      simp only [streamLoop]
      rw [if_pos ⟨hmb, hceil⟩]
      simp [concatOf]
  | succ n ih =>
    intro lines ending b acc hk hceil hlt hstop
    cases lines with
    | nil => simp at hk
    | cons l rest =>
      have hb : b < cfg.MaxBytes := by
        have h0 := hlt 0 (by omega)
        simpa [bytesOf_nil] using h0
      have hl : ¬ lineStops cfg l := hstop l (by simp [List.take_succ_cons])
      have hc2 : cfg.MaxBytes ≤ b + l.length + bytesOf (rest.take n) := by
        rw [List.take_succ_cons, bytesOf_cons] at hceil
        omega
      have hlt2 : ∀ j, j < n → b + l.length + bytesOf (rest.take j) < cfg.MaxBytes := by
        intro j hj
        have := hlt (j + 1) (by omega)
        rw [List.take_succ_cons, bytesOf_cons] at this
        omega
      have hs2 : ∀ l0 ∈ rest.take n, ¬ lineStops cfg l0 := by
        intro l0 hm
        exact hstop l0 (by simp [List.take_succ_cons, hm])
      simp only [streamLoop]
      rw [if_neg (by omega), if_neg hl,
        ih rest ending (b + l.length) (acc ++ l) (by simpa using hk) hc2 hlt2 hs2]
      simp only [List.take_succ_cons, bytesOf_cons, concatOf]
      rw [Nat.add_assoc, String.append_assoc]

/-- C8 counterexample: the claim says the reader stops as soon as the
stop-substring is observed "in the content accumulated so far"; here the
accumulated content "xa\nbz\n" does contain the configured substring
"a\nb", yet the reader runs to end-of-stream and reports
`FoundContent = false` — the code tests each line alone, never the
accumulated content. -/
theorem stream_stopAcrossLines_cex :
    StreamResponse c8cfg ["xa\n", "bz\n"] StreamEnding.eof =
      Except.ok ⟨6, "xa\nbz\n", false⟩ ∧
    strContainsStr "xa\nbz\n" "a\nb" = true := by
  constructor
  · rfl
  · decide

/-- C8 (amended): the reader stops at the first LINE that itself contains
the stop-substring (substrings spanning a line boundary are not detected):
there `FoundContent = true` and `Content` is the text through that line
inclusive; the ceiling and substring triggers are not errors; with no
ceiling and no line containing the substring the whole stream is consumed,
EOF yielding the accumulated content and any other read error a failure;
with a positive ceiling the reader stops successfully right after the
first line at whose start the accumulated bytes reach the ceiling. -/
theorem streamReader_spec (cfg : StreamConfig) :
    (∀ pre l post ending, cfg.MaxBytes = 0 →
      (∀ l0 ∈ pre, ¬ lineStops cfg l0) → lineStops cfg l →
      StreamResponse cfg (pre ++ l :: post) ending =
        Except.ok ⟨bytesOf pre + l.length, concatOf pre ++ l, true⟩) ∧
    (∀ lines, cfg.MaxBytes = 0 → (∀ l0 ∈ lines, ¬ lineStops cfg l0) →
      StreamResponse cfg lines StreamEnding.eof =
        Except.ok ⟨bytesOf lines, concatOf lines, false⟩ ∧
      ∀ e, StreamResponse cfg lines (StreamEnding.fail e) = Except.error e) ∧
    (∀ lines ending k, 0 < cfg.MaxBytes → k ≤ lines.length →
      cfg.MaxBytes ≤ bytesOf (lines.take k) →
      (∀ j, j < k → bytesOf (lines.take j) < cfg.MaxBytes) →
      (∀ l0 ∈ lines.take k, ¬ lineStops cfg l0) →
      StreamResponse cfg lines ending =
        Except.ok ⟨bytesOf (lines.take k), concatOf (lines.take k), false⟩) := by
  refine ⟨fun pre l post ending hmb hpre hl => streamLoop_stop cfg hmb pre l post ending hpre hl,
    fun lines hmb hpre => streamLoop_end cfg hmb lines hpre,
    fun lines ending k hmb hk hceil hlt hstop => ?_⟩
  have h := streamLoop_ceiling cfg hmb k lines ending 0 "" hk (by simpa using hceil)
    (fun j hj => by simpa using hlt j hj) hstop
  simpa [StreamResponse] using h

/-- C8 witness: `streamReader_spec` applied to a stream whose third line
contains the stop-substring "needle", with unlimited bytes: the result is
found-content with the text through line 3 inclusive. -/
theorem streamReader_spec_witness :
    StreamResponse ⟨"needle", 8192, 0⟩
        ["line one\n", "line two\n", "has needle here\n", "line four\n"]
        StreamEnding.eof =
      Except.ok ⟨bytesOf ["line one\n", "line two\n"] + "has needle here\n".length,
        concatOf ["line one\n", "line two\n"] ++ "has needle here\n", true⟩ :=
  (streamReader_spec ⟨"needle", 8192, 0⟩).1 ["line one\n", "line two\n"]
    "has needle here\n" ["line four\n"] StreamEnding.eof rfl (by decide) (by decide)

/-- C9: the claim (and the spec's concurrency section) requires an atomic
store-if-absent, two concurrent first lookups returning the same profile.
The code is wrong: under the interleaving load-A, load-B, store-A, store-B
both threads miss, each stores its own generated profile and returns it —
thread A observes profile 1, thread B profile 2, and the cache ends
holding 2, so thread A's profile differs from every later lookup's. -/
theorem getThreadProfile_race :
    (raceRun 1 2 [true, false, true, false] raceInit).resA = some 1 ∧
    (raceRun 1 2 [true, false, true, false] raceInit).resB = some 2 ∧
    (raceRun 1 2 [true, false, true, false] raceInit).cache = some 2 ∧
    (some 1 : Option Nat) ≠ some 2 := by
  refine ⟨rfl, rfl, rfl, by decide⟩

/-- C10: the per-call options `FollowRedirects` and `MaxRedirects` have no
effect on `Do` — overwriting them with arbitrary values changes nothing
observable: redirects are always governed by the hardcoded hop limit 10. -/
theorem do_ignores_redirect_options (ua lang reqPath url : String) (d : Draws)
    (history : List String) (opt : RequestOptions) (fr : Bool) (mr : Int) :
    doModel ua lang reqPath url d history
        (some { opt with FollowRedirects := fr, MaxRedirects := mr }) =
      doModel ua lang reqPath url d history (some opt) := by
  simp only [doModel, mergeOptions]
  split_ifs <;> rfl

end BrowserClient
